import Mathlib

/-!
Shallow embedding of `src/hydro_analysis_utils.py`, function `find_events_and_lags`.

Modelling conventions:
* A dataframe row is a `RawRecord`: a date (integer day number — the input is a
  daily series, and all date arithmetic in the source is in whole days) together
  with the two columns the function selects, `precip_col` and `'Discharge (cfs)'`.
  A missing (NaN) cell is `none`; `dropna` keeps exactly the rows where both are
  present (source line 22).
* Scalar values are `ℚ`.  The threshold is `Option ℚ`: `none` models the NaN that
  `Series.quantile` returns on an empty series, and every `>=` comparison against
  it is false, exactly as NaN comparisons behave in pandas (`rainGe`).
* `Series.quantile(q)` uses linear interpolation over the sorted values:
  `h = q*(n-1)`, `result = s[⌊h⌋] + (h-⌊h⌋)*(s[⌊h⌋+1] - s[⌊h⌋])` (`interp`).
  pandas validates the percentile first and raises `ValueError` when q is outside
  `[0, 1]`, irrespective of the data; the top-level function is therefore
  `Except PandasError _` with that single error branch.
* `working.loc[start:end]` on the sorted date index is the inclusive range
  `windowOf`; `idxmax` returns the first index attaining the maximum (`peakRec`);
  `working.loc[start, precip_col]` is lookup of the first row with that date
  (`lookupPrecip`).
-/

namespace Hydro

/-- An input row: date index plus the two columns used by the function; `none`
models a NaN cell. -/
structure RawRecord where
  date : Int
  precip : Option ℚ
  discharge : Option ℚ
deriving DecidableEq, Repr

/-- A row of `working`, after `dropna`: both columns present. -/
structure Record where
  date : Int
  precip : ℚ
  discharge : ℚ
deriving DecidableEq, Repr

/-- One row of the returned events dataframe (source lines 51–58). -/
structure Event where
  event_date : Int
  peak_date : Int
  lag_days : Int
  peak_discharge : ℚ
  rain_amount : ℚ
  n_sig_days_in_window : Nat
deriving DecidableEq, Repr

/-- The one failure the source can produce: the `ValueError` pandas raises from
`Series.quantile` when the percentile is outside `[0, 1]`. -/
inductive PandasError where
  | valueError
deriving DecidableEq, Repr

/-- Source line 22: select the two columns and drop rows with NaN in either. -/
def dropna (df : List RawRecord) : List Record :=
  df.filterMap fun r =>
    match r.precip, r.discharge with
    | some p, some d => some ⟨r.date, p, d⟩
    | _, _ => none

/-- Linear-interpolation quantile kernel of `Series.quantile` on the sorted
values `s` at fractional rank `h = q*(n-1)`: `s[i] + (h-i)*(s[i+1]-s[i])` with
`i = ⌊h⌋` (when `i+1` is out of range the interpolation weight is zero and the
second point defaults to the first). -/
def interp (s : List ℚ) (h : ℚ) : ℚ :=
  let i : Nat := ⌊h⌋.toNat
  let x := s.getD i 0
  let y := s.getD (i + 1) x
  x + (h - (i : ℚ)) * (y - x)

/-- `Series.quantile(q)` with the default linear interpolation: NaN (`none`) on
an empty series, otherwise interpolate the sorted values at rank `q*(n-1)`. -/
def quantile (q : ℚ) (xs : List ℚ) : Option ℚ :=
  match xs with
  | [] => none
  | _ :: _ => some (interp (List.insertionSort (· ≤ ·) xs) (q * ((xs.length : ℚ) - 1)))

/-- The comparison `rain >= threshold` (source lines 31 and 43): false when the
threshold is NaN, as in pandas. -/
def rainGe (rain : ℚ) (t : Option ℚ) : Bool :=
  match t with
  | none => false
  | some v => decide (v ≤ rain)

/-- Source line 29: `skip_until is not None and date <= skip_until`. -/
def skipHit (skip : Option Int) (d : Int) : Bool :=
  match skip with
  | none => false
  | some su => decide (d ≤ su)

/-- Source lines 25–33: the greedy scan over `working` collecting event start
dates, carrying the `skip_until` cursor. -/
def scanStarts (t : Option ℚ) (g : Int) : List Record → Option Int → List Int
  | [], _ => []
  | r :: rest, skip =>
    if skipHit skip r.date then
      scanStarts t g rest skip
    else if rainGe r.precip t then
      r.date :: scanStarts t g rest (some (r.date + g))
    else
      scanStarts t g rest skip

/-- Source line 39: `working.loc[start:end]`, the inclusive date-range slice of
the (sorted) working frame. -/
def windowOf (working : List Record) (s e : Int) : List Record :=
  working.filter fun r => decide (s ≤ r.date ∧ r.date ≤ e)

/-- Source line 47: `idxmax` over the window — the first row attaining the
maximum discharge.  `peakRec r rest` is that row of the nonempty list
`r :: rest`. -/
def peakRec : Record → List Record → Record
  | r, [] => r
  | r, s :: rest =>
    let p := peakRec s rest
    if r.discharge < p.discharge then p else r

/-- Source line 56: `working.loc[start, precip_col]` — the precipitation of the
(first) row with the given date. -/
def lookupPrecip (working : List Record) (d : Int) : ℚ :=
  match working.find? (fun r => decide (r.date = d)) with
  | some r => r.precip
  | none => 0

/-- Source lines 37–58, body of the second loop for one event start `s`:
empty-window discard (lines 40–41), significant-day count and
`require_single_day` discard (lines 43–45), peak location and event assembly
(lines 47–58). -/
def mkEvent (working : List Record) (t : Option ℚ) (w : Int) (rsd : Bool)
    (s : Int) : Option Event :=
  match windowOf working s (s + w) with
  | [] => none
  | r :: rest =>
    let nsig := ((r :: rest).filter fun x => rainGe x.precip t).length
    if rsd && decide (1 < nsig) then none
    else
      let p := peakRec r rest
      some { event_date := s
             peak_date := p.date
             lag_days := p.date - s
             peak_discharge := p.discharge
             rain_amount := lookupPrecip working s
             n_sig_days_in_window := nsig }

/-- Source line 23: the threshold, the q-quantile of the strictly positive
precipitation values of `working`. -/
def thresholdOf (df : List RawRecord) (q : ℚ) : Option ℚ :=
  quantile q (((dropna df).map Record.precip).filter fun p => decide (0 < p))

/-- The event-start dates produced by the scan (source lines 25–33). -/
def eventStarts (df : List RawRecord) (q : ℚ) (g : Int) : List Int :=
  scanStarts (thresholdOf df q) g (dropna df) none

/-- The whole computation on the non-error path: the events dataframe and the
threshold (source lines 22–61). -/
def runExtract (df : List RawRecord) (q : ℚ) (g w : Int) (rsd : Bool) :
    List Event × Option ℚ :=
  ((eventStarts df q g).filterMap (mkEvent (dropna df) (thresholdOf df q) w rsd),
   thresholdOf df q)

/-- Source lines 11–61, `find_events_and_lags`: pandas validates the percentile
of the `quantile` call on line 23 and raises `ValueError` when `q ∉ [0, 1]`
(this happens before the scan loop); otherwise the function is total and
returns the events dataframe together with the threshold. -/
def find_events_and_lags (df : List RawRecord) (q : ℚ) (min_gap_days window_days : Int)
    (require_single_day : Bool) : Except PandasError (List Event × Option ℚ) :=
  if q < 0 ∨ 1 < q then
    Except.error PandasError.valueError
  else
    Except.ok (runExtract df q min_gap_days window_days require_single_day)

/-! ### Lemmas about the greedy scan (source lines 25–33) -/

/-- Every date the scan emits is the date of some working record whose
precipitation passes the threshold comparison. -/
theorem mem_scanStarts {t : Option ℚ} {g : Int} {l : List Record} :
    ∀ {skip : Option Int} {s : Int}, s ∈ scanStarts t g l skip →
      ∃ r ∈ l, r.date = s ∧ rainGe r.precip t = true := by
  induction l with
  | nil => intro skip s h; simp [scanStarts] at h
  | cons r rest ih =>
    intro skip s h
    unfold scanStarts at h
    by_cases hskip : skipHit skip r.date = true
    · rw [if_pos hskip] at h
      obtain ⟨r0, h0, hd, hge⟩ := ih h
      exact ⟨r0, List.mem_cons_of_mem _ h0, hd, hge⟩
    · rw [if_neg hskip] at h
      by_cases hr : rainGe r.precip t = true
      · rw [if_pos hr] at h
        rcases List.mem_cons.mp h with he | hm
        · exact ⟨r, List.mem_cons_self _ _, he.symm, hr⟩
        · obtain ⟨r0, h0, hd, hge⟩ := ih hm
          exact ⟨r0, List.mem_cons_of_mem _ h0, hd, hge⟩
      · rw [if_neg hr] at h
        obtain ⟨r0, h0, hd, hge⟩ := ih h
        exact ⟨r0, List.mem_cons_of_mem _ h0, hd, hge⟩

/-- With a nonnegative gap, every date emitted while the cursor is at `su` lies
strictly beyond `su`. -/
theorem scanStarts_gt {t : Option ℚ} {g : Int} (hg : 0 ≤ g) {l : List Record} :
    ∀ {su : Int} {s : Int}, s ∈ scanStarts t g l (some su) → su < s := by
  induction l with
  | nil => intro su s h; simp [scanStarts] at h
  | cons r rest ih =>
    intro su s h
    unfold scanStarts at h
    by_cases hskip : skipHit (some su) r.date = true
    · rw [if_pos hskip] at h; exact ih h
    · rw [if_neg hskip] at h
      have hlt : su < r.date := by
        simp only [skipHit, decide_eq_true_eq] at hskip
        omega
      by_cases hr : rainGe r.precip t = true
      · rw [if_pos hr] at h
        rcases List.mem_cons.mp h with he | hm
        · omega
        · have := ih hm
          omega
      · rw [if_neg hr] at h; exact ih h

/-- The emitted dates form a chain: each start exceeds its predecessor by more
than the gap (this is the cursor mechanism itself, not a post-filter). -/
theorem scanStarts_chain {t : Option ℚ} {g : Int} (hg : 0 ≤ g) {l : List Record} :
    ∀ skip, List.Chain' (fun a b => a + g < b) (scanStarts t g l skip) := by
  induction l with
  | nil => intro skip; simp [scanStarts]
  | cons r rest ih =>
    intro skip
    unfold scanStarts
    by_cases hskip : skipHit skip r.date = true
    · rw [if_pos hskip]; exact ih skip
    · rw [if_neg hskip]
      by_cases hr : rainGe r.precip t = true
      · rw [if_pos hr]
        refine List.chain'_cons'.mpr ⟨?_, ih _⟩
        intro y hy
        exact scanStarts_gt hg (List.mem_of_mem_head? hy)
      · rw [if_neg hr]; exact ih skip

/-- With a NaN threshold every comparison fails and the scan emits nothing. -/
theorem scanStarts_none {g : Int} {l : List Record} :
    ∀ skip, scanStarts none g l skip = [] := by
  induction l with
  | nil => intro skip; rfl
  | cons r rest ih =>
    intro skip
    unfold scanStarts
    by_cases hskip : skipHit skip r.date = true
    · rw [if_pos hskip]; exact ih skip
    · rw [if_neg hskip, if_neg (by simp [rainGe])]
      exact ih skip

/-! ### Lemmas about the window and the peak (source lines 37–49) -/

/-- Membership in `working.loc[start:end]`. -/
theorem mem_windowOf {working : List Record} {s e : Int} {x : Record} :
    x ∈ windowOf working s e ↔ x ∈ working ∧ s ≤ x.date ∧ x.date ≤ e := by
  simp [windowOf, List.mem_filter]

/-- The row `idxmax` picks belongs to the window. -/
theorem peakRec_mem (r : Record) (l : List Record) : peakRec r l ∈ r :: l := by
  induction l generalizing r with
  | nil => simp [peakRec]
  | cons s rest ih =>
    simp only [peakRec]
    split_ifs
    · exact List.mem_cons_of_mem _ (ih s)
    · exact List.mem_cons_self _ _

/-- The row `idxmax` picks attains the maximum discharge of the window. -/
theorem peakRec_le (r : Record) (l : List Record) :
    ∀ x ∈ r :: l, x.discharge ≤ (peakRec r l).discharge := by
  induction l generalizing r with
  | nil =>
    intro x hx
    rw [List.mem_singleton] at hx
    subst hx
    simp [peakRec]
  | cons s rest ih =>
    intro x hx
    simp only [peakRec]
    split_ifs with h
    · rcases List.mem_cons.mp hx with rfl | hx'
      · exact le_of_lt h
      · exact ih s x hx'
    · rcases List.mem_cons.mp hx with rfl | hx'
      · exact le_rfl
      · exact le_trans (ih s x hx') (not_lt.mp h)

/-- On a list with strictly increasing dates, the row `idxmax` picks is the
earliest one attaining the maximum discharge. -/
theorem peakRec_first (r : Record) (l : List Record)
    (hp : (r :: l).Pairwise fun a b => a.date < b.date) :
    ∀ x ∈ r :: l, x.discharge = (peakRec r l).discharge → (peakRec r l).date ≤ x.date := by
  induction l generalizing r with
  | nil =>
    intro x hx _
    rw [List.mem_singleton] at hx
    subst hx
    simp [peakRec]
  | cons s rest ih =>
    intro x hx he
    simp only [peakRec] at he ⊢
    split_ifs at he ⊢ with h
    · rcases List.mem_cons.mp hx with rfl | hx'
      · exact absurd h (by rw [he]; exact lt_irrefl _)
      · exact ih s hp.of_cons x hx' he
    · rcases List.mem_cons.mp hx with rfl | hx'
      · exact le_rfl
      · exact le_of_lt ((List.pairwise_cons.mp hp).1 x hx')

/-! ### Lemmas about row lookup (source line 56) -/

/-- On a frame with strictly increasing dates, `find?` by a member's date
returns that member. -/
theorem find_date_unique {l : List Record}
    (hp : l.Pairwise fun a b => a.date < b.date) {r : Record} (hr : r ∈ l) :
    l.find? (fun x => decide (x.date = r.date)) = some r := by
  induction l with
  | nil => simp at hr
  | cons a tl ih =>
    rcases List.mem_cons.mp hr with rfl | hmem
    · simp
    · have hne : (decide (a.date = r.date)) = false := by
        have := (List.pairwise_cons.mp hp).1 r hmem
        simp only [decide_eq_false_iff_not]
        omega
      rw [List.find?_cons, hne]
      exact ih hp.of_cons hmem

/-- `working.loc[start, precip_col]` of a member's date is that member's
precipitation, when dates are strictly increasing. -/
theorem lookupPrecip_eq {l : List Record}
    (hp : l.Pairwise fun a b => a.date < b.date) {r : Record} (hr : r ∈ l) :
    lookupPrecip l r.date = r.precip := by
  unfold lookupPrecip
  rw [find_date_unique hp hr]

/-! ### Monotonicity of the quantile kernel (source line 23) -/

/-- Casting the clamped floor of a nonnegative rational back to `ℚ` gives the
floor. -/
theorem toNat_floor_cast {h : ℚ} (h0 : 0 ≤ h) : ((⌊h⌋.toNat : ℚ)) = (⌊h⌋ : ℚ) := by
  have hfl : (0:ℤ) ≤ ⌊h⌋ := Int.floor_nonneg.mpr h0
  exact_mod_cast congrArg (fun z : ℤ => (z : ℚ)) (Int.toNat_of_nonneg hfl)

/-- Indexing a `Pairwise (· ≤ ·)` list is monotone in the index. -/
theorem getD_mono {s : List ℚ} (hs : s.Pairwise (· ≤ ·)) {i j : Nat}
    (hij : i ≤ j) (hj : j < s.length) : s.getD i 0 ≤ s.getD j 0 := by
  rcases eq_or_lt_of_le hij with rfl | hlt
  · exact le_rfl
  · rw [List.getD_eq_getElem _ _ (lt_of_le_of_lt hij hj), List.getD_eq_getElem _ _ hj]
    exact List.pairwise_iff_getElem.mp hs i j _ _ hlt

/-- In a `Pairwise (· ≤ ·)` list, an interpolation cell is ordered (the right
endpoint defaults to the left one when out of range). -/
theorem interp_cell_le {s : List ℚ} (hs : s.Pairwise (· ≤ ·)) (i : Nat) :
    s.getD i 0 ≤ s.getD (i + 1) (s.getD i 0) := by
  by_cases h : i + 1 < s.length
  · rw [List.getD_eq_getElem _ _ h, List.getD_eq_getElem _ _ (by omega)]
    exact List.pairwise_iff_getElem.mp hs i (i + 1) (by omega) h (by omega)
  · rw [show s.getD (i + 1) (s.getD i 0) = s.getD i 0 from
      List.getD_eq_default _ _ (by omega)]

/-- The interpolated value is at least the left endpoint of its cell. -/
theorem interp_lower {s : List ℚ} (hs : s.Pairwise (· ≤ ·)) {h : ℚ} (h0 : 0 ≤ h) :
    s.getD ⌊h⌋.toNat 0 ≤ interp s h := by
  unfold interp
  dsimp only
  have hba := interp_cell_le hs ⌊h⌋.toNat
  have hγ0 : 0 ≤ h - (⌊h⌋.toNat : ℚ) := by
    rw [toNat_floor_cast h0]
    have := Int.floor_le h
    linarith
  nlinarith [mul_nonneg hγ0 (by linarith :
    (0:ℚ) ≤ s.getD (⌊h⌋.toNat + 1) (s.getD ⌊h⌋.toNat 0) - s.getD ⌊h⌋.toNat 0)]

/-- The interpolated value is at most the right endpoint of its cell. -/
theorem interp_upper {s : List ℚ} (hs : s.Pairwise (· ≤ ·)) {h : ℚ} (h0 : 0 ≤ h) :
    interp s h ≤ s.getD (⌊h⌋.toNat + 1) (s.getD ⌊h⌋.toNat 0) := by
  unfold interp
  dsimp only
  have hba := interp_cell_le hs ⌊h⌋.toNat
  have hγ1 : h - (⌊h⌋.toNat : ℚ) ≤ 1 := by
    rw [toNat_floor_cast h0]
    have := Int.lt_floor_add_one h
    linarith
  nlinarith [mul_nonneg (by linarith : (0:ℚ) ≤ 1 - (h - (⌊h⌋.toNat : ℚ))) (by linarith :
    (0:ℚ) ≤ s.getD (⌊h⌋.toNat + 1) (s.getD ⌊h⌋.toNat 0) - s.getD ⌊h⌋.toNat 0)]

/-- Within one interpolation cell the interpolated value is monotone in the
rank. -/
theorem interp_mono_cell {s : List ℚ} (hs : s.Pairwise (· ≤ ·)) {h1 h2 : ℚ}
    (h12 : h1 ≤ h2) (hfloor : ⌊h1⌋ = ⌊h2⌋) :
    interp s h1 ≤ interp s h2 := by
  unfold interp
  dsimp only
  rw [hfloor]
  have hba := interp_cell_le hs ⌊h2⌋.toNat
  nlinarith [mul_nonneg (by linarith : (0:ℚ) ≤ h2 - h1) (by linarith :
    (0:ℚ) ≤ s.getD (⌊h2⌋.toNat + 1) (s.getD ⌊h2⌋.toNat 0) - s.getD ⌊h2⌋.toNat 0)]

/-- The interpolation kernel is monotone in the rank over a sorted nonempty
list, for ranks within range. -/
theorem interp_mono {s : List ℚ} (hs : s.Pairwise (· ≤ ·)) (hne : s ≠ [])
    {h1 h2 : ℚ} (h01 : 0 ≤ h1) (h12 : h1 ≤ h2) (hlen : h2 ≤ (s.length : ℚ) - 1) :
    interp s h1 ≤ interp s h2 := by
  have h02 : 0 ≤ h2 := le_trans h01 h12
  have hfl1 : (0:ℤ) ≤ ⌊h1⌋ := Int.floor_nonneg.mpr h01
  have hfl2 : (0:ℤ) ≤ ⌊h2⌋ := Int.floor_nonneg.mpr h02
  have hflmono : ⌊h1⌋ ≤ ⌊h2⌋ := Int.floor_mono h12
  have hi2len : ⌊h2⌋.toNat < s.length := by
    have hq : ((⌊h2⌋ : ℤ) : ℚ) ≤ (s.length : ℚ) - 1 := le_trans (Int.floor_le h2) hlen
    have hz : ⌊h2⌋ ≤ (s.length : ℤ) - 1 := by exact_mod_cast hq
    have hpos : 0 < s.length := List.length_pos.mpr hne
    omega
  rcases eq_or_lt_of_le hflmono with heq | hlt
  · exact interp_mono_cell hs h12 heq
  · have hi1 : ⌊h1⌋.toNat + 1 ≤ ⌊h2⌋.toNat := by omega
    calc interp s h1
        ≤ s.getD (⌊h1⌋.toNat + 1) (s.getD ⌊h1⌋.toNat 0) := interp_upper hs h01
      _ = s.getD (⌊h1⌋.toNat + 1) 0 := by
          rw [List.getD_eq_getElem _ _ (by omega), List.getD_eq_getElem _ _ (by omega)]
      _ ≤ s.getD ⌊h2⌋.toNat 0 := getD_mono hs hi1 hi2len
      _ ≤ interp s h2 := interp_lower hs h02

/-- `Series.quantile` is monotone in the percentile on a fixed nonempty
series. -/
theorem quantile_mono {xs : List ℚ} (hne : xs ≠ []) {q1 q2 : ℚ}
    (hq1 : 0 ≤ q1) (h12 : q1 ≤ q2) (hq2 : q2 ≤ 1) :
    ∃ v1 v2, quantile q1 xs = some v1 ∧ quantile q2 xs = some v2 ∧ v1 ≤ v2 := by
  obtain ⟨x, rest, rfl⟩ := List.exists_cons_of_ne_nil hne
  refine ⟨_, _, rfl, rfl, ?_⟩
  have hsorted : (List.insertionSort (· ≤ ·) (x :: rest)).Pairwise (· ≤ ·) :=
    List.sorted_insertionSort _ _
  have hslen : (List.insertionSort (· ≤ ·) (x :: rest)).length = (x :: rest).length :=
    List.length_insertionSort _ _
  have hsne : List.insertionSort (· ≤ ·) (x :: rest) ≠ [] := by
    intro h0
    rw [h0] at hslen
    simp at hslen
  have hn1 : (0:ℚ) ≤ ((x :: rest).length : ℚ) - 1 := by
    have hlen : 1 ≤ (x :: rest).length := by simp
    have : (1:ℚ) ≤ ((x :: rest).length : ℚ) := by exact_mod_cast hlen
    linarith
  apply interp_mono hsorted hsne
  · exact mul_nonneg hq1 hn1
  · exact mul_le_mul_of_nonneg_right h12 hn1
  · rw [hslen]
    exact mul_le_of_le_one_left hn1 hq2

/-- Evaluating the quantile on a one-element series: any percentile gives the
single value (the interpolation rank `q*(1-1)` is zero). -/
theorem quantile_single (q v : ℚ) : quantile q [v] = some v := by
  simp only [quantile]
  have hq0 : q * ((([v] : List ℚ).length : ℚ) - 1) = 0 := by norm_num
  rw [hq0]
  have hsort : List.insertionSort (· ≤ ·) [v] = [v] := rfl
  rw [hsort]
  unfold interp
  dsimp only
  rw [Int.floor_zero]
  simp [List.getD_cons_zero]

/-- Evaluating the quantile on a two-element series with equal values: any
percentile in `[0,1)` gives that value. -/
theorem quantile_pair (q v : ℚ) (h0 : 0 ≤ q) (h1 : q < 1) :
    quantile q [v, v] = some v := by
  simp only [quantile]
  have hq0 : q * ((([v, v] : List ℚ).length : ℚ) - 1) = q := by norm_num
  rw [hq0]
  have hsort : List.insertionSort (· ≤ ·) [v, v] = [v, v] := by
    simp [List.insertionSort, List.orderedInsert]
  rw [hsort]
  unfold interp
  dsimp only
  have hfl : ⌊q⌋ = 0 := Int.floor_eq_zero_iff.mpr (Set.mem_Ico.mpr ⟨h0, h1⟩)
  rw [hfl]
  simp [List.getD_cons_zero, List.getD_cons_succ]

/-! ### Anatomy of an emitted event (source lines 37–58) -/

/-- If the loop body emits an event for start `s`, the window is nonempty, the
`require_single_day` guard passed, and every field of the event is determined
by the window. -/
theorem mkEvent_eq {working : List Record} {t : Option ℚ} {w : Int} {rsd : Bool}
    {s : Int} {e : Event} (h : mkEvent working t w rsd s = some e) :
    ∃ r rest, windowOf working s (s + w) = r :: rest ∧
      (rsd = true → ((r :: rest).filter fun x => rainGe x.precip t).length ≤ 1) ∧
      e = { event_date := s
            peak_date := (peakRec r rest).date
            lag_days := (peakRec r rest).date - s
            peak_discharge := (peakRec r rest).discharge
            rain_amount := lookupPrecip working s
            n_sig_days_in_window := ((r :: rest).filter fun x => rainGe x.precip t).length } := by
  unfold mkEvent at h
  split at h
  · exact absurd h (by simp)
  · rename_i r rest heq
    dsimp only at h
    refine ⟨r, rest, heq, ?_, ?_⟩
    · intro hrsd
      by_contra hlen
      rw [if_pos] at h
      · exact absurd h (by simp)
      · simp [hrsd]
        omega
    · split at h
      · exact absurd h (by simp)
      · exact (Option.some.inj h).symm

/-- Unpacking a successful run of the function. -/
theorem ok_elim {df : List RawRecord} {q : ℚ} {g w : Int} {rsd : Bool}
    {events : List Event} {thr : Option ℚ}
    (h : find_events_and_lags df q g w rsd = Except.ok (events, thr)) :
    events = (eventStarts df q g).filterMap (mkEvent (dropna df) (thresholdOf df q) w rsd) ∧
    thr = thresholdOf df q := by
  unfold find_events_and_lags at h
  split at h
  · exact absurd h (by simp)
  · have h2 := Except.ok.inj h
    unfold runExtract at h2
    rw [Prod.mk.injEq] at h2
    exact ⟨h2.1.symm, h2.2.symm⟩

/-! ## Concrete inputs used by the witnesses -/

/-- A four-day series with qualifying spikes on days 0 and 12 (precipitation 6
each, so the median of the positive values is 6 and both days reach it), and
discharge peaks one day after each spike. -/
def sampleDf : List RawRecord :=
  [⟨0, some 6, some 10⟩, ⟨1, some 0, some 20⟩, ⟨12, some 6, some 3⟩, ⟨13, some 0, some 9⟩]

/-- The events `sampleDf` yields with `q = 1/2`, `min_gap_days = 10`,
`window_days = 2`, `require_single_day = true`. -/
def sampleEvents : List Event :=
  [⟨0, 1, 1, 20, 6, 1⟩, ⟨12, 13, 1, 9, 6, 1⟩]

/-- Running the function on `sampleDf`: the median of the positive
precipitation values `[6, 6]` is 6, days 0 and 12 become event starts, and
each start's two-record window peaks one day later. -/
theorem sample_run :
    find_events_and_lags sampleDf (mkRat 1 2) 10 2 true =
      Except.ok (sampleEvents, some 6) := by
  have hthr : thresholdOf sampleDf (mkRat 1 2) = some 6 :=
    quantile_pair (mkRat 1 2) 6 (by decide) (by decide)
  unfold find_events_and_lags
  rw [if_neg (by decide)]
  unfold runExtract eventStarts
  rw [hthr]
  rfl

/-! ## The claims -/

/-- C1, counterexample: on an input whose only row has a missing precipitation
value the filtered frame is empty, yet the function returns a result — an
empty events frame with a NaN threshold — instead of raising any error. -/
theorem claim1_cex :
    dropna [⟨0, none, some 1⟩] = [] ∧
    find_events_and_lags [⟨0, none, some 1⟩] (mkRat 9 10) 10 10 true =
      Except.ok ([], none) := by
  refine ⟨rfl, ?_⟩
  unfold find_events_and_lags
  rw [if_neg (by decide)]
  rfl

/-- C1, amended: if after dropping records with missing precipitation or
discharge zero records remain, `find_events_and_lags` does not fail (the code
defines no `EmptyInputError`): for any in-range percentile it returns an empty
events frame together with a NaN (undefined) threshold. -/
theorem claim1_empty_filtered_returns (df : List RawRecord) (q : ℚ) (g w : Int)
    (rsd : Bool) (hq0 : 0 ≤ q) (hq1 : q ≤ 1) (hempty : dropna df = []) :
    find_events_and_lags df q g w rsd = Except.ok ([], none) := by
  unfold find_events_and_lags
  rw [if_neg (by push_neg; exact ⟨hq0, hq1⟩)]
  unfold runExtract eventStarts thresholdOf
  rw [hempty]
  rfl

/-- C1, witness for the amended claim at a concrete input. -/
theorem claim1_empty_filtered_returns_witness :
    ((0:ℚ) ≤ mkRat 1 2 ∧ mkRat 1 2 ≤ (1:ℚ) ∧ dropna [⟨0, some 1, none⟩] = []) ∧
    find_events_and_lags [⟨0, some 1, none⟩] (mkRat 1 2) 0 0 false = Except.ok ([], none) :=
  ⟨⟨by decide, by decide, rfl⟩,
    claim1_empty_filtered_returns _ _ _ _ _ (by decide) (by decide) rfl⟩

/-- C2, counterexample: with `q = 1` (outside the open interval), a negative
`min_gap_days` and a negative `window_days`, the function raises nothing and
returns a result, so no `InvalidParameterError` surfaces for these inputs. -/
theorem claim2_cex :
    find_events_and_lags [⟨0, some 1, some 1⟩] 1 (-1) (-1) true =
      Except.ok ([], some 1) := by
  have hthr : thresholdOf [⟨0, some 1, some 1⟩] 1 = some 1 := quantile_single 1 1
  unfold find_events_and_lags
  rw [if_neg (by norm_num)]
  unfold runExtract eventStarts
  rw [hthr]
  rfl

/-- C2, amended: the code performs no explicit parameter validation and
defines no `InvalidParameterError`.  For any percentile in the closed interval
`[0, 1]` — endpoints included — and arbitrary, even negative, `min_gap_days`
and `window_days` it returns a result; only `q < 0` or `q > 1` fails, with the
`ValueError` that pandas raises from the quantile call on line 23, which does
occur before the scan loop. -/
theorem claim2_no_parameter_validation (df : List RawRecord) (q : ℚ) (g w : Int)
    (rsd : Bool) :
    (0 ≤ q → q ≤ 1 →
      find_events_and_lags df q g w rsd = Except.ok (runExtract df q g w rsd)) ∧
    (q < 0 ∨ 1 < q →
      find_events_and_lags df q g w rsd = Except.error PandasError.valueError) := by
  constructor
  · intro h0 h1
    unfold find_events_and_lags
    rw [if_neg (by push_neg; exact ⟨h0, h1⟩)]
  · intro hbad
    unfold find_events_and_lags
    rw [if_pos hbad]

/-- C2, witness for the amended claim at concrete inputs on both branches. -/
theorem claim2_no_parameter_validation_witness :
    find_events_and_lags [⟨0, some 1, some 1⟩] 1 (-1) (-1) true =
      Except.ok (runExtract [⟨0, some 1, some 1⟩] 1 (-1) (-1) true) ∧
    find_events_and_lags [⟨0, some 1, some 1⟩] (mkRat 3 2) (-1) (-1) true =
      Except.error PandasError.valueError :=
  ⟨(claim2_no_parameter_validation _ _ _ _ _).1 (by norm_num) (by norm_num),
   (claim2_no_parameter_validation _ _ _ _ _).2 (by decide)⟩

/-- C3, counterexample: no valid input at all — strictly increasing dates,
percentile in `(0,1)`, nonnegative gap and window, nonempty filtered frame —
gives an event start whose window holds zero filtered records, because the
start's own record always lies in its window. -/
theorem claim3_cex :
    ¬ ∃ (df : List RawRecord) (q : ℚ) (g w : Int),
        (dropna df).Pairwise (fun a b => a.date < b.date) ∧
        0 < q ∧ q < 1 ∧ 0 ≤ g ∧ 0 ≤ w ∧ dropna df ≠ [] ∧
        ∃ s ∈ eventStarts df q g, windowOf (dropna df) s (s + w) = [] := by
  rintro ⟨df, q, g, w, -, -, -, -, hw, -, s, hs, hwin⟩
  unfold eventStarts at hs
  obtain ⟨r, hr, hdate, -⟩ := mem_scanStarts hs
  have hmem : r ∈ windowOf (dropna df) s (s + w) :=
    mem_windowOf.mpr ⟨hr, by omega, by omega⟩
  rw [hwin] at hmem
  exact absurd hmem (List.not_mem_nil r)

/-- C3, amended: with `window_days ≥ 0` an event start's window always
contains the record at the start date, so the empty-window discard of source
lines 40–41 never fires and no start is lost to it (the events frame can only
lose rows to the `require_single_day` guard); an empty window would need a
negative `window_days`. -/
theorem claim3_window_never_empty (df : List RawRecord) (q : ℚ) (g w : Int)
    (hw : 0 ≤ w) :
    ∀ s ∈ eventStarts df q g, windowOf (dropna df) s (s + w) ≠ [] := by
  intro s hs hwin
  unfold eventStarts at hs
  obtain ⟨r, hr, hdate, -⟩ := mem_scanStarts hs
  have hmem : r ∈ windowOf (dropna df) s (s + w) :=
    mem_windowOf.mpr ⟨hr, by omega, by omega⟩
  rw [hwin] at hmem
  exact absurd hmem (List.not_mem_nil r)

/-- C3, witness for the amended claim at a concrete input. -/
theorem claim3_window_never_empty_witness :
    (0:Int) ≤ 2 ∧
    ∀ s ∈ eventStarts sampleDf (mkRat 1 2) 10,
      windowOf (dropna sampleDf) s (s + 2) ≠ [] :=
  ⟨by decide, claim3_window_never_empty sampleDf (mkRat 1 2) 10 2 (by decide)⟩

/-- C4: with a nonnegative gap, consecutive event starts differ by more than
`min_gap_days` and the start dates are strictly increasing; this is proved
about the greedy scan with its skip-until cursor itself (`scanStarts`), not by
any post-filter. -/
theorem claim4_starts_separated (df : List RawRecord) (q : ℚ) (g : Int)
    (hg : 0 ≤ g) :
    List.Chain' (fun a b => g < b - a) (eventStarts df q g) ∧
    List.Chain' (fun a b => a < b) (eventStarts df q g) := by
  have hchain := scanStarts_chain (t := thresholdOf df q) (l := dropna df) hg none
  exact ⟨hchain.imp fun a b h => by omega, hchain.imp fun a b h => by omega⟩

/-- C4, witness at a concrete input with two event starts. -/
theorem claim4_starts_separated_witness :
    (0:Int) ≤ 10 ∧
    (List.Chain' (fun a b => (10:Int) < b - a) (eventStarts sampleDf (mkRat 1 2) 10) ∧
     List.Chain' (fun a b => a < b) (eventStarts sampleDf (mkRat 1 2) 10)) :=
  ⟨by decide, claim4_starts_separated sampleDf (mkRat 1 2) 10 (by decide)⟩

/-- C5: with `require_single_day` true and a nonnegative window, every emitted
event has exactly one record in its window whose precipitation reaches the
threshold — the start day itself. -/
theorem claim5_single_sig_day (df : List RawRecord) (q : ℚ) (g w : Int)
    (events : List Event) (thr : Option ℚ) (hw : 0 ≤ w)
    (h : find_events_and_lags df q g w true = Except.ok (events, thr)) :
    ∀ e ∈ events, e.n_sig_days_in_window = 1 := by
  intro e he
  obtain ⟨hev, -⟩ := ok_elim h
  rw [hev] at he
  obtain ⟨s, hs, hmk⟩ := List.mem_filterMap.mp he
  obtain ⟨r, rest, hwin, hle, hefields⟩ := mkEvent_eq hmk
  unfold eventStarts at hs
  obtain ⟨r0, hr0, hdate, hge⟩ := mem_scanStarts hs
  have hr0win : r0 ∈ windowOf (dropna df) s (s + w) :=
    mem_windowOf.mpr ⟨hr0, by omega, by omega⟩
  rw [hwin] at hr0win
  have hr0f : r0 ∈ (r :: rest).filter fun x => rainGe x.precip (thresholdOf df q) :=
    List.mem_filter.mpr ⟨hr0win, hge⟩
  have hpos : 0 < ((r :: rest).filter fun x => rainGe x.precip (thresholdOf df q)).length :=
    List.length_pos.mpr (List.ne_nil_of_mem hr0f)
  have hle1 := hle rfl
  rw [hefields]
  dsimp only
  omega

/-- C5, witness at a concrete input with two emitted events. -/
theorem claim5_single_sig_day_witness :
    ((0:Int) ≤ 2 ∧
      find_events_and_lags sampleDf (mkRat 1 2) 10 2 true =
        Except.ok (sampleEvents, some 6)) ∧
    ∀ e ∈ sampleEvents, e.n_sig_days_in_window = 1 :=
  ⟨⟨by decide, sample_run⟩,
   claim5_single_sig_day sampleDf (mkRat 1 2) 10 2 sampleEvents (some 6)
     (by decide) sample_run⟩

/-- C6: every emitted event has a nonnegative lag, and its peak date lies in
the window: `event_date ≤ peak_date ≤ event_date + window_days`. -/
theorem claim6_lag_nonneg_peak_in_window (df : List RawRecord) (q : ℚ) (g w : Int)
    (rsd : Bool) (events : List Event) (thr : Option ℚ)
    (h : find_events_and_lags df q g w rsd = Except.ok (events, thr)) :
    ∀ e ∈ events,
      0 ≤ e.lag_days ∧ e.event_date ≤ e.peak_date ∧ e.peak_date ≤ e.event_date + w := by
  intro e he
  obtain ⟨hev, -⟩ := ok_elim h
  rw [hev] at he
  obtain ⟨s, hs, hmk⟩ := List.mem_filterMap.mp he
  obtain ⟨r, rest, hwin, -, hefields⟩ := mkEvent_eq hmk
  have hpk : peakRec r rest ∈ r :: rest := peakRec_mem r rest
  rw [← hwin] at hpk
  obtain ⟨-, hlo, hhi⟩ := mem_windowOf.mp hpk
  rw [hefields]
  dsimp only
  omega

/-- C6, witness at a concrete input with two emitted events. -/
theorem claim6_lag_nonneg_peak_in_window_witness :
    find_events_and_lags sampleDf (mkRat 1 2) 10 2 true =
      Except.ok (sampleEvents, some 6) ∧
    ∀ e ∈ sampleEvents,
      0 ≤ e.lag_days ∧ e.event_date ≤ e.peak_date ∧ e.peak_date ≤ e.event_date + 2 :=
  ⟨sample_run,
   claim6_lag_nonneg_peak_in_window sampleDf (mkRat 1 2) 10 2 true sampleEvents
     (some 6) sample_run⟩

/-- C7: every emitted event's peak is a record of its window attaining the
maximum discharge of the window, and on ties it is the earliest such date. -/
theorem claim7_peak_first_maximum (df : List RawRecord) (q : ℚ) (g w : Int)
    (rsd : Bool) (events : List Event) (thr : Option ℚ)
    (hsorted : (dropna df).Pairwise fun a b => a.date < b.date)
    (h : find_events_and_lags df q g w rsd = Except.ok (events, thr)) :
    ∀ e ∈ events,
      ∃ p ∈ windowOf (dropna df) e.event_date (e.event_date + w),
        p.date = e.peak_date ∧ p.discharge = e.peak_discharge ∧
        (∀ x ∈ windowOf (dropna df) e.event_date (e.event_date + w),
          x.discharge ≤ e.peak_discharge) ∧
        (∀ x ∈ windowOf (dropna df) e.event_date (e.event_date + w),
          x.discharge = e.peak_discharge → e.peak_date ≤ x.date) := by
  intro e he
  obtain ⟨hev, -⟩ := ok_elim h
  rw [hev] at he
  obtain ⟨s, hs, hmk⟩ := List.mem_filterMap.mp he
  obtain ⟨r, rest, hwin, -, hefields⟩ := mkEvent_eq hmk
  have hdate : e.event_date = s := by rw [hefields]
  have hpdate : e.peak_date = (peakRec r rest).date := by rw [hefields]
  have hpq : e.peak_discharge = (peakRec r rest).discharge := by rw [hefields]
  have hwpair : (r :: rest).Pairwise fun a b => a.date < b.date := by
    rw [← hwin]
    exact hsorted.filter _
  refine ⟨peakRec r rest, ?_, hpdate.symm, hpq.symm, ?_, ?_⟩
  · rw [hdate, hwin]
    exact peakRec_mem r rest
  · intro x hx
    rw [hdate, hwin] at hx
    rw [hpq]
    exact peakRec_le r rest x hx
  · intro x hx hxe
    rw [hdate, hwin] at hx
    rw [hpdate]
    exact peakRec_first r rest hwpair x hx (by rw [← hpq]; exact hxe)

/-- C7, witness at a concrete input (both events peak one day after the start,
with strictly larger discharge there). -/
theorem claim7_peak_first_maximum_witness :
    ((dropna sampleDf).Pairwise (fun a b => a.date < b.date) ∧
      find_events_and_lags sampleDf (mkRat 1 2) 10 2 true =
        Except.ok (sampleEvents, some 6)) ∧
    ∀ e ∈ sampleEvents,
      ∃ p ∈ windowOf (dropna sampleDf) e.event_date (e.event_date + 2),
        p.date = e.peak_date ∧ p.discharge = e.peak_discharge ∧
        (∀ x ∈ windowOf (dropna sampleDf) e.event_date (e.event_date + 2),
          x.discharge ≤ e.peak_discharge) ∧
        (∀ x ∈ windowOf (dropna sampleDf) e.event_date (e.event_date + 2),
          x.discharge = e.peak_discharge → e.peak_date ≤ x.date) :=
  ⟨⟨by decide, sample_run⟩,
   claim7_peak_first_maximum sampleDf (mkRat 1 2) 10 2 true sampleEvents (some 6)
     (by decide) sample_run⟩

/-- C8: every emitted event's start date carries precipitation at or above the
threshold (which in particular is defined), and the event's `rain_amount` is
exactly the precipitation recorded on the start date. -/
theorem claim8_rain_at_start (df : List RawRecord) (q : ℚ) (g w : Int)
    (rsd : Bool) (events : List Event) (thr : Option ℚ)
    (hsorted : (dropna df).Pairwise fun a b => a.date < b.date)
    (h : find_events_and_lags df q g w rsd = Except.ok (events, thr)) :
    ∀ e ∈ events, ∃ r ∈ dropna df, r.date = e.event_date ∧
      e.rain_amount = r.precip ∧ ∃ v, thr = some v ∧ v ≤ r.precip := by
  intro e he
  obtain ⟨hev, hthr⟩ := ok_elim h
  rw [hev] at he
  obtain ⟨s, hs, hmk⟩ := List.mem_filterMap.mp he
  obtain ⟨r, rest, hwin, -, hefields⟩ := mkEvent_eq hmk
  unfold eventStarts at hs
  obtain ⟨r0, hr0, hdate, hge⟩ := mem_scanStarts hs
  refine ⟨r0, hr0, ?_, ?_, ?_⟩
  · rw [hefields]
    exact hdate
  · rw [hefields]
    dsimp only
    rw [← hdate]
    exact lookupPrecip_eq hsorted hr0
  · rcases hthr2 : thresholdOf df q with - | v
    · rw [hthr2] at hge
      simp [rainGe] at hge
    · rw [hthr2] at hge
      simp only [rainGe, decide_eq_true_eq] at hge
      exact ⟨v, by rw [hthr, hthr2], hge⟩

/-- C8, witness at a concrete input with two emitted events. -/
theorem claim8_rain_at_start_witness :
    ((dropna sampleDf).Pairwise (fun a b => a.date < b.date) ∧
      find_events_and_lags sampleDf (mkRat 1 2) 10 2 true =
        Except.ok (sampleEvents, some 6)) ∧
    ∀ e ∈ sampleEvents, ∃ r ∈ dropna sampleDf, r.date = e.event_date ∧
      e.rain_amount = r.precip ∧ ∃ v, (some 6 : Option ℚ) = some v ∧ v ≤ r.precip :=
  ⟨⟨by decide, sample_run⟩,
   claim8_rain_at_start sampleDf (mkRat 1 2) 10 2 true sampleEvents (some 6)
     (by decide) sample_run⟩

/-- C9: on a fixed input whose set of strictly positive precipitation values
is nonempty, the threshold is monotone non-decreasing in the percentile: for
`q1 ≤ q2`, both in `(0,1)`, both thresholds are defined and ordered. -/
theorem claim9_threshold_monotone (df : List RawRecord) (q1 q2 : ℚ)
    (h1 : 0 < q1) (h12 : q1 ≤ q2) (h2 : q2 < 1)
    (hpos : (((dropna df).map Record.precip).filter fun p => decide (0 < p)) ≠ []) :
    ∃ v1 v2, thresholdOf df q1 = some v1 ∧ thresholdOf df q2 = some v2 ∧ v1 ≤ v2 := by
  unfold thresholdOf
  exact quantile_mono hpos (le_of_lt h1) h12 (le_of_lt h2)

/-- C9, witness at a concrete input and percentile pair. -/
theorem claim9_threshold_monotone_witness :
    ((0:ℚ) < mkRat 1 4 ∧ mkRat 1 4 ≤ mkRat 3 4 ∧ mkRat 3 4 < (1:ℚ) ∧
      (((dropna sampleDf).map Record.precip).filter fun p => decide (0 < p)) ≠ []) ∧
    ∃ v1 v2, thresholdOf sampleDf (mkRat 1 4) = some v1 ∧
      thresholdOf sampleDf (mkRat 3 4) = some v2 ∧ v1 ≤ v2 :=
  ⟨⟨by decide, by decide, by decide, by decide⟩,
   claim9_threshold_monotone sampleDf (mkRat 1 4) (mkRat 3 4) (by decide) (by decide)
     (by decide) (by decide)⟩

/-- C10: an input that is nonempty after filtering but has no strictly
positive precipitation raises no error: the quantile is taken over an empty
list so the threshold is NaN, no comparison against it succeeds, and the
function returns an empty events frame together with the NaN threshold. -/
theorem claim10_all_zero_precip (df : List RawRecord) (q : ℚ) (g w : Int)
    (rsd : Bool) (hq0 : 0 ≤ q) (hq1 : q ≤ 1) (hne : dropna df ≠ [])
    (hnopos : ∀ r ∈ dropna df, r.precip ≤ 0) :
    find_events_and_lags df q g w rsd = Except.ok ([], none) := by
  have hfilter : (((dropna df).map Record.precip).filter fun p => decide (0 < p)) = [] := by
    rw [List.filter_eq_nil_iff]
    intro p hp
    obtain ⟨r, hr, rfl⟩ := List.mem_map.mp hp
    simp only [decide_eq_true_eq, not_lt]
    exact hnopos r hr
  have hthr : thresholdOf df q = none := by
    unfold thresholdOf
    rw [hfilter]
    rfl
  unfold find_events_and_lags
  rw [if_neg (by push_neg; exact ⟨hq0, hq1⟩)]
  unfold runExtract eventStarts
  rw [hthr, scanStarts_none]
  rfl

/-- C10, witness at a concrete input whose only precipitation value is 0. -/
theorem claim10_all_zero_precip_witness :
    ((0:ℚ) ≤ mkRat 1 2 ∧ mkRat 1 2 ≤ (1:ℚ) ∧ dropna [⟨0, some 0, some 1⟩] ≠ [] ∧
      ∀ r ∈ dropna [⟨0, some 0, some 1⟩], r.precip ≤ 0) ∧
    find_events_and_lags [⟨0, some 0, some 1⟩] (mkRat 1 2) 10 10 true =
      Except.ok ([], none) :=
  ⟨⟨by decide, by decide, by decide, by decide⟩,
   claim10_all_zero_precip [⟨0, some 0, some 1⟩] (mkRat 1 2) 10 10 true (by decide)
     (by decide) (by decide) (by decide)⟩

end Hydro
